import Mathlib

/-!
Shallow embedding of the `concurrent` and `arity` packages of
obsidiandynamics/libstdgo, for checking the natural-language specification
against the code.

Conventions of the embedding:
* Go `int64` values are modelled as `Int`; the one place Go arithmetic wraps
  (atomic `AddInt64`) applies `wrap64`, two's-complement reduction modulo 2^64.
* A Go panic is modelled as `Except.error` carrying the panic message.
* The single-slot non-blocking notification channel of a counter / reference /
  shard is modelled as a `Bool` (`true` when a notification is pending);
  a non-blocking send-or-drop sets it to `true`.
* Concurrent interference is modelled by explicit extra inputs: the value a
  CAS observes, or the trace of values an `AwaitCtx` loop reads.
-/

namespace Libstdgo

/-- Two's-complement wraparound of an integer into the `int64` range
`[-2^63, 2^63)`, i.e. reduction modulo 2^64. This is what Go's
`atomic.AddInt64` does on overflow. -/
def wrap64 (x : Int) : Int := (x + 2^63) % 2^64 - 2^63

/-! ## Package `arity` (source embedded in src/arity/arity_test.go's companion file) -/

/-- Panic message of `arity.Optional` when `limit < 1`. -/
def errLimitLessThanOne : String := "Limit must be greater than 0"

/-- Panic message of `arity.Optional` when the offset is outside the range. -/
def errOffsetOutsideRange : String := "The limit-offset relationship must satisfy 0 <= offset < limit"

/-- Embedding of `arity.Optional(offset, limit int, def interface{}, args ...interface{})`:
extracts `args[offset]` when present, the default when `args` is too short, and
panics (modelled as `Except.error`) when `args` has more than `limit` elements
or the offset/limit arguments are malformed. -/
def Optional {α : Type} (offset limit : Int) (dflt : α) (args : List α) : Except String α :=
  if limit < 1 then .error errLimitLessThanOne
  else if hoff : offset < 0 ∨ limit ≤ offset then .error errOffsetOutsideRange
  else if limit < (args.length : Int) then
    .error ("Expected at most " ++ toString limit ++ " argument(s), got " ++ toString args.length)
  else if hlen : offset < (args.length : Int) then
    .ok (args.get ⟨offset.toNat, by omega⟩)
  else .ok dflt

/-- Embedding of `arity.Sole(def, args...)`: the sole optional argument, or the
default when absent; panics when more than one argument is supplied.
`arity.SoleUntyped(def, args)` is `Sole` after `ListifyOrPanic`, which always
succeeds on the slices the `concurrent` constructors pass it. -/
def Sole {α : Type} (dflt : α) (args : List α) : Except String α :=
  Optional 0 1 dflt args

/-! ## AtomicCounter (src/concurrent/counter.go) -/

/-- State of an `atomicCounter`: the `int64` value and the single-slot
notification channel (`notify = true` when a wakeup is pending). -/
structure AtomicCounter where
  value : Int
  notify : Bool
  deriving Repr, DecidableEq

/-- Embedding of `atomicCounter.notifyUpdate`: non-blocking send on the
single-slot channel (fills the slot, or drops when already full). -/
def AtomicCounter.notifyUpdate (c : AtomicCounter) : AtomicCounter :=
  { c with notify := true }

/-- Embedding of `NewAtomicCounter(initial ...int64)`: optional initial value,
0 by default; more than one argument panics inside `arity`. -/
def NewAtomicCounter (initial : List Int) : Except String AtomicCounter :=
  (Sole 0 initial).map fun v => { value := v, notify := false }

/-- Embedding of `atomicCounter.Get`: atomic load of the value. -/
def AtomicCounter.Get (c : AtomicCounter) : Int := c.value

/-- Embedding of `atomicCounter.Add`: atomic add (wrapping, as
`atomic.AddInt64` does), notifying and returning the updated value. -/
def AtomicCounter.Add (c : AtomicCounter) (amount : Int) : AtomicCounter × Int :=
  let updated := wrap64 (c.value + amount)
  (AtomicCounter.notifyUpdate { c with value := updated }, updated)

/-- Embedding of `atomicCounter.Inc`: `Add(1)`. -/
def AtomicCounter.Inc (c : AtomicCounter) : AtomicCounter × Int := c.Add 1

/-- Embedding of `atomicCounter.Dec`: `Add(-1)`. -/
def AtomicCounter.Dec (c : AtomicCounter) : AtomicCounter × Int := c.Add (-1)

/-- Embedding of `atomicCounter.Set`: atomic store followed by a notification. -/
def AtomicCounter.Set (c : AtomicCounter) (amount : Int) : AtomicCounter :=
  AtomicCounter.notifyUpdate { c with value := amount }

/-- Embedding of `atomicCounter.CompareAndSwap`: if the stored value equals
`expected` it is replaced and a notification pushed, returning `true`;
otherwise the state is left untouched and `false` is returned. -/
def AtomicCounter.CompareAndSwap (c : AtomicCounter) (expected replacement : Int) :
    AtomicCounter × Bool :=
  if c.value = expected then
    (AtomicCounter.notifyUpdate { c with value := replacement }, true)
  else (c, false)

/-- Applies a sequence of `Add` calls to a counter, returning the final state. -/
def AtomicCounter.runAdds (c : AtomicCounter) : List Int → AtomicCounter
  | [] => c
  | d :: rest => ((c.Add d).1).runAdds rest

/-! ## Deadline (src/concurrent/deadline.go)

Timestamps are `time.Time` values represented by their `UnixNano` `Int`;
`timeCas` stores them in an `AtomicCounter`. -/

/-- Embedding of `timeCas`: an atomic Unix-nanosecond timestamp. -/
structure TimeCas where
  time : AtomicCounter
  deriving Repr, DecidableEq

/-- Embedding of `timeCas.get`: the stored timestamp (as Unix nanoseconds;
`time.Unix(0, n).UnixNano() = n`). -/
def TimeCas.get (t : TimeCas) : Int := t.time.Get

/-- Embedding of `timeCas.compareAndSwap` on the underlying counter. -/
def TimeCas.compareAndSwap (t : TimeCas) (expected replacement : Int) : TimeCas × Bool :=
  let r := t.time.CompareAndSwap expected replacement
  (⟨r.1⟩, r.2)

/-- Embedding of `timeCas.ifSwapped`: attempts the CAS and, exactly on success,
runs `f`. Output: (new state, whether `f` ran, returned boolean). -/
def TimeCas.ifSwapped (t : TimeCas) (expected replacement : Int) : TimeCas × Bool × Bool :=
  let r := t.compareAndSwap expected replacement
  if r.2 then (r.1, true, true) else (r.1, false, false)

/-- Embedding of `timeCas.set`. -/
def TimeCas.set (t : TimeCas) (time : Int) : TimeCas :=
  ⟨t.time.Set time⟩

/-- State of a `deadline`: the last-run timestamp CAS cell and the interval
(a `time.Duration`, in nanoseconds). -/
structure Deadline where
  lastRun : TimeCas
  interval : Int
  deriving Repr, DecidableEq

/-- Embedding of `NewDeadline(interval)`: last run at the Unix epoch. -/
def NewDeadline (interval : Int) : Deadline :=
  { lastRun := ⟨{ value := 0, notify := false }⟩, interval := interval }

/-- Embedding of `deadline.Last`. -/
def Deadline.Last (d : Deadline) : Int := d.lastRun.get

/-- Embedding of `deadline.TryRun(f)`. The reads `now := time.Now()` and
`last := d.Last()` happen first; the CAS is a separate later atomic action, so
a concurrent caller may have advanced the timestamp in between — `casState` is
the cell's state at the instant the CAS executes (equal to `d.lastRun` when
there is no interference). Output: (cell state after the call, whether the CAS
was attempted, whether `f` ran, returned boolean). -/
def Deadline.tryRun (d : Deadline) (casState : TimeCas) (now : Int) :
    TimeCas × Bool × Bool × Bool :=
  let last := d.Last
  if now - last > d.interval then
    let r := casState.ifSwapped last now
    (r.1, true, r.2.1, r.2.2)
  else (casState, false, false, false)

/-- Embedding of `deadline.Move`. -/
def Deadline.Move (d : Deadline) (new : Int) : Deadline :=
  { d with lastRun := d.lastRun.set new }

/-! ## The Await / AwaitCtx loop (src/concurrent/counter.go, reference.go, and
the shard's `await` — all three share the same loop structure)

Each loop iteration reads the current value, returns it if the condition
holds, otherwise (allocating the polling ticker on first need) blocks in a
`select` on context cancellation, the notification channel, or the ticker.
An execution is modelled by its trace: the value each read observes, and the
`select` branch that fires when the condition fails. -/

/-- Branch of the `select` that wakes a blocked `AwaitCtx` iteration. -/
inductive WakeEvent where
  | ctxDone
  | notify
  | tick
  deriving Repr, DecidableEq

/-- One iteration of an `AwaitCtx` execution trace: the value the iteration's
read observes, and the `select` branch that fires if the condition fails. -/
structure AwaitStep where
  value : Int
  event : WakeEvent
  deriving Repr, DecidableEq

/-- Outcome of an `AwaitCtx` call: the returned value, whether the polling
ticker was ever allocated, and how many reads of the value were performed. -/
structure AwaitResult where
  value : Int
  tickerAllocated : Bool
  reads : Nat
  deriving Repr, DecidableEq

/-- Embedding of the `AwaitCtx` loop body over a trace. `ticker` is whether
the sleep ticker has been allocated so far and `reads` the number of reads
performed so far. `none` means the trace ended with the call still blocked. -/
def awaitCtxRun (cond : Int → Bool) (ticker : Bool) (reads : Nat) :
    List AwaitStep → Option AwaitResult
  | [] => none
  | step :: rest =>
    if cond step.value then some ⟨step.value, ticker, reads + 1⟩
    else match step.event with
      | .ctxDone => some ⟨step.value, true, reads + 1⟩
      | _ => awaitCtxRun cond true (reads + 1) rest

/-- Embedding of `atomicCounter.AwaitCtx(ctx, cond, interval?)` (and of the
structurally identical `shard.await`): runs the loop with no ticker allocated
and no reads performed yet. -/
def AtomicCounter.AwaitCtx (cond : Int → Bool) (steps : List AwaitStep) : Option AwaitResult :=
  awaitCtxRun cond false 0 steps

/-- Embedding of `atomicCounter.Await(cond, timeout, interval?)`: delegates to
`AwaitCtx` under a context produced by `Timeout`; the trace's `ctxDone` events
are then fired by that timeout's expiry. -/
def AtomicCounter.Await (cond : Int → Bool) (steps : List AwaitStep) : Option AwaitResult :=
  AtomicCounter.AwaitCtx cond steps

/-! ## AtomicReference (src/concurrent/reference.go)

Go `interface{}` referents over a payload type `V` are modelled as `Option V`
with `none` standing for Go's `nil`. -/

/-- Embedding of the single-field carrier struct `pointer`. -/
structure Pointer (V : Type) where
  referent : Option V
  deriving Repr, DecidableEq

/-- Embedding of `sync/atomic.Value`: `contents = none` models the raw,
never-stored state, on which a `Load` returns Go `nil` (and on which
`atomicReference.Get`'s type assertion would panic). A raw `atomic.Value`
also rejects a `nil` store outright, which is why the carrier is needed. -/
structure AtomicValue (V : Type) where
  contents : Option (Pointer V)
  deriving Repr, DecidableEq

/-- State of an `atomicReference`. -/
structure AtomicReference (V : Type) where
  notify : Bool
  value : AtomicValue V
  deriving Repr, DecidableEq

/-- Embedding of `NewAtomicReference(initial ...interface{})`: wraps the sole
optional initial referent (default Go `nil`, i.e. `none`) in a `pointer` and
stores it. -/
def NewAtomicReference {V : Type} (initial : List (Option V)) :
    Except String (AtomicReference V) :=
  (Sole none initial).map fun initVal =>
    { notify := false, value := ⟨some ⟨initVal⟩⟩ }

/-- Embedding of `atomicReference.Set`: stores the referent wrapped in a
`pointer` and pushes a notification. -/
def AtomicReference.Set {V : Type} (v : AtomicReference V) (referent : Option V) :
    AtomicReference V :=
  { v with value := ⟨some ⟨referent⟩⟩, notify := true }

/-- Embedding of `atomicReference.Get`: loads the carrier and projects the
referent. `none` models the type-assertion panic on a raw never-stored
`atomic.Value` — unreachable through the constructor, which always stores. -/
def AtomicReference.Get {V : Type} (v : AtomicReference V) : Option (Option V) :=
  v.value.contents.map Pointer.referent

/-! ## Scoreboard (src/unnamed/part_010, package `concurrent`)

A shard's Go map `map[string]int64` is modelled as an association list with
at most one binding per key; `delete` removes the binding, assignment
replaces it, and a read of an absent key yields the zero value 0. -/

/-- Go map read: the first binding of `key`, if any. -/
def lookupKey : List (String × Int) → String → Option Int
  | [], _ => none
  | kv :: rest, key => if kv.1 = key then some kv.2 else lookupKey rest key

/-- Go `delete(m, key)`: removes the binding of `key`. -/
def eraseKey : List (String × Int) → String → List (String × Int)
  | [], _ => []
  | kv :: rest, key => if kv.1 = key then eraseKey rest key else kv :: eraseKey rest key

/-- Go `m[key] = v`: replaces the binding of `key` by `v`. -/
def insertKey (m : List (String × Int)) (key : String) (v : Int) : List (String × Int) :=
  (key, v) :: eraseKey m key

/-- State of a `shard`: its counters map and its single-slot notification
channel (the mutex is implicit — each operation is one atomic step here). -/
structure Shard where
  counters : List (String × Int)
  notify : Bool
  deriving Repr, DecidableEq

/-- Embedding of `newShard`. -/
def newShard : Shard := { counters := [], notify := false }

/-- Embedding of `shard.add`: adds `amount` (wrapping, as Go `int64` `+`
does) to the key's count; a resulting 0 deletes the key instead of being
stored. Returns the updated shard and the updated value. -/
def Shard.add (s : Shard) (key : String) (amount : Int) : Shard × Int :=
  let updated := wrap64 ((lookupKey s.counters key).getD 0 + amount)
  if updated = 0 then
    ({ counters := eraseKey s.counters key, notify := true }, updated)
  else
    ({ counters := insertKey s.counters key updated, notify := true }, updated)

/-- Embedding of `shard.set`: a 0 deletes the key instead of being stored. -/
def Shard.set (s : Shard) (key : String) (amount : Int) : Shard :=
  if amount = 0 then { counters := eraseKey s.counters key, notify := true }
  else { counters := insertKey s.counters key amount, notify := true }

/-- Embedding of `shard.get`: map read, 0 for an absent key. -/
def Shard.get (s : Shard) (key : String) : Int :=
  (lookupKey s.counters key).getD 0

/-- Embedding of `shard.view`: copies this shard's entries into `view`. -/
def Shard.view (s : Shard) (view : List (String × Int)) : List (String × Int) :=
  s.counters.foldl (fun acc kv => insertKey acc kv.1 kv.2) view

/-- Embedding of `shard.clear`: replaces the map by a fresh empty one. -/
def Shard.clear (s : Shard) : Shard :=
  { s with counters := [] }

/-- Applies a sequence of `add` calls for one key to a shard. -/
def Shard.runAddsKey (s : Shard) (key : String) : List Int → Shard
  | [] => s
  | d :: rest => ((s.add key d).1).runAddsKey key rest

/-- Embedding of `hash`: 32-bit FNV-1a over the key's UTF-8 bytes
(`hash/fnv.New32a`). -/
def hash (str : String) : Nat :=
  str.toUTF8.foldl (fun h b => ((h ^^^ b.toNat) * 16777619) % 4294967296) 2166136261

/-- State of a `scoreboard`: its fixed array of shards. -/
structure Scoreboard where
  shards : List Shard
  deriving Repr, DecidableEq

/-- Embedding of `DefaultConcurrency`. -/
def DefaultConcurrency : Int := 16

/-- Construction of the shard array: `make([]*shard, conc)` populated with
fresh shards. -/
def mkScoreboard (conc : Nat) : Scoreboard :=
  { shards := List.replicate conc newShard }

/-- Embedding of `NewScoreboard(concurrency ...int)`: sole optional
concurrency (default `DefaultConcurrency`), with no lower-bound validation —
`make` only panics on a negative length, so 0 constructs successfully. -/
def NewScoreboard (concurrency : List Int) : Except String Scoreboard :=
  (Sole DefaultConcurrency concurrency).bind fun conc =>
    if conc < 0 then .error "makeslice: len out of range"
    else .ok (mkScoreboard conc.toNat)

/-- Embedding of `scoreboard.forKey`'s routing computation
`hash(key) % uint32(len(b.shards))`: yields the shard index, or `none` for
the integer-divide-by-zero runtime panic when there are no shards. -/
def Scoreboard.forKey (b : Scoreboard) (key : String) : Option Nat :=
  if b.shards.length = 0 then none
  else some (hash key % b.shards.length)

/-- Embedding of `scoreboard.Get`: routes to the key's shard and reads it;
`none` models the routing panic of a shardless scoreboard. -/
def Scoreboard.Get (b : Scoreboard) (key : String) : Option Int :=
  (b.forKey key).bind fun i => (b.shards.get? i).map fun s => s.get key

/-- Embedding of `scoreboard.Add`: routes to the key's shard and adds there,
returning the new scoreboard state and the updated value. -/
def Scoreboard.Add (b : Scoreboard) (key : String) (amount : Int) :
    Option (Scoreboard × Int) :=
  (b.forKey key).bind fun i => (b.shards.get? i).map fun s =>
    let r := s.add key amount
    (⟨b.shards.set i r.1⟩, r.2)

/-- Embedding of `scoreboard.Inc`. -/
def Scoreboard.Inc (b : Scoreboard) (key : String) : Option (Scoreboard × Int) :=
  b.Add key 1

/-- Embedding of `scoreboard.Dec`. -/
def Scoreboard.Dec (b : Scoreboard) (key : String) : Option (Scoreboard × Int) :=
  b.Add key (-1)

/-- Embedding of `scoreboard.Set`. -/
def Scoreboard.Set (b : Scoreboard) (key : String) (value : Int) : Option Scoreboard :=
  (b.forKey key).bind fun i => (b.shards.get? i).map fun s =>
    ⟨b.shards.set i (s.set key value)⟩

/-- Embedding of `scoreboard.Clear`: clears every shard. -/
def Scoreboard.Clear (b : Scoreboard) : Scoreboard :=
  ⟨b.shards.map Shard.clear⟩

/-- Embedding of `scoreboard.View`: folds every shard's entries into one map. -/
def Scoreboard.View (b : Scoreboard) : List (String × Int) :=
  b.shards.foldl (fun view s => s.view view) []

/-- Embedding of `scoreboard.AwaitCtx(ctx, key, cond, interval?)`: routes to
the key's shard (panicking, `none`, on a shardless scoreboard) and runs the
shard's `await` loop, whose structure `awaitCtxRun` embeds. -/
def Scoreboard.AwaitCtx (b : Scoreboard) (key : String) (cond : Int → Bool)
    (steps : List AwaitStep) : Option AwaitResult :=
  (b.forKey key).bind fun i => (b.shards.get? i).bind fun _ =>
    awaitCtxRun cond false 0 steps

/-- Sparseness invariant of a shard's map: no key is bound to 0. -/
def ShardInv (s : Shard) : Prop := ∀ kv ∈ s.counters, kv.2 ≠ 0

/-- One scoreboard mutation, for stating invariants over operation sequences. -/
inductive ScoreOp where
  | add (key : String) (amount : Int)
  | inc (key : String)
  | dec (key : String)
  | set (key : String) (value : Int)
  | clear
  deriving Repr, DecidableEq

/-- Applies one mutation (a panicking operation leaves the state unchanged). -/
def Scoreboard.applyOp (b : Scoreboard) : ScoreOp → Scoreboard
  | .add key amount => ((b.Add key amount).map Prod.fst).getD b
  | .inc key => ((b.Inc key).map Prod.fst).getD b
  | .dec key => ((b.Dec key).map Prod.fst).getD b
  | .set key value => (b.Set key value).getD b
  | .clear => b.Clear

/-- Applies a sequence of mutations. -/
def Scoreboard.run (b : Scoreboard) : List ScoreOp → Scoreboard
  | [] => b
  | op :: rest => (b.applyOp op).run rest

/-! ## Timeout / Forever context helpers (src/concurrent/time.go)

A context is modelled by its done-predicate over the clock (`Int`
nanoseconds): `done c t` says the context's Done channel is closed at time
`t`. `context.Background()` is never done. `context.WithDeadline(p, d)`
yields a context that is done once `p` is done, the clock reaches `d`, or its
own cancel function has been called (`cancelledAt`). -/

/-- Done-predicate model of a `context.Context`. -/
def Context : Type := Int → Bool

/-- Embedding of `context.Background()`: never done. -/
def background : Context := fun _ => false

/-- Embedding of the context returned by `context.WithDeadline(parent, d)`,
given when (if ever) its own cancel function was called. -/
def withDeadline (parent : Context) (d : Int) (cancelledAt : Option Int) : Context :=
  fun t => parent t || decide (d ≤ t) ||
    match cancelledAt with
    | some c => decide (c ≤ t)
    | none => false

/-- Embedding of `Indefinitely`: `math.MaxInt64` nanoseconds. -/
def Indefinitely : Int := 9223372036854775807

/-- Embedding of `Timeout(parent, timeout)`: derives the returned context
from `context.Background()` — not from `parent` — with deadline
`time.Now().Add(timeout)`, where `now` is the clock at the call. -/
def Timeout (parent : Context) (now timeout : Int) (cancelledAt : Option Int) : Context :=
  withDeadline background (now + timeout) cancelledAt

/-- Embedding of `Forever(parent)`: `Timeout(parent, Indefinitely)`. -/
def Forever (parent : Context) (now : Int) (cancelledAt : Option Int) : Context :=
  Timeout parent now Indefinitely cancelledAt

/-! ## Helper lemmas -/

theorem wrap64_idem_add (a b : Int) : wrap64 (wrap64 a + b) = wrap64 (a + b) := by
  unfold wrap64
  omega

theorem wrap64_fix {a : Int} (h1 : -(2^63) ≤ a) (h2 : a < 2^63) : wrap64 a = a := by
  unfold wrap64
  omega

theorem wrap64_mem_range (a : Int) : -(2^63) ≤ wrap64 a ∧ wrap64 a < 2^63 := by
  unfold wrap64
  omega

theorem mem_of_mem_eraseKey {m : List (String × Int)} {key : String} {kv : String × Int}
    (h : kv ∈ eraseKey m key) : kv ∈ m := by
  induction m with
  | nil => simp [eraseKey] at h
  | cons hd tl ih =>
    unfold eraseKey at h
    by_cases hk : hd.1 = key
    · simp only [hk, if_pos rfl] at h
      exact List.mem_cons_of_mem _ (ih h)
    · simp only [if_neg hk, List.mem_cons] at h
      rcases h with h | h
      · exact h ▸ List.mem_cons_self _ _
      · exact List.mem_cons_of_mem _ (ih h)

theorem mem_of_lookupKey {m : List (String × Int)} {key : String} {v : Int}
    (h : lookupKey m key = some v) : (key, v) ∈ m := by
  induction m with
  | nil => simp [lookupKey] at h
  | cons hd tl ih =>
    unfold lookupKey at h
    split at h
    · rename_i heq
      injection h with hv
      subst hv
      subst heq
      simp
    · exact List.mem_cons_of_mem _ (ih h)

theorem lookupKey_eraseKey_self (m : List (String × Int)) (key : String) :
    lookupKey (eraseKey m key) key = none := by
  induction m with
  | nil => rfl
  | cons hd tl ih =>
    unfold eraseKey
    by_cases hk : hd.1 = key
    · simpa [hk] using ih
    · simpa [lookupKey, hk] using ih

theorem lookupKey_insertKey_self (m : List (String × Int)) (key : String) (v : Int) :
    lookupKey (insertKey m key v) key = some v := by
  simp [insertKey, lookupKey]

theorem shardInv_lookup {s : Shard} (h : ShardInv s) (k : String) :
    lookupKey s.counters k ≠ some 0 := by
  intro hl
  exact h _ (mem_of_lookupKey hl) rfl

theorem shardInv_newShard : ShardInv newShard := by
  intro kv hkv
  simp [newShard] at hkv

theorem shardInv_add {s : Shard} (h : ShardInv s) (key : String) (amount : Int) :
    ShardInv (s.add key amount).1 := by
  unfold Shard.add
  by_cases hz : wrap64 ((lookupKey s.counters key).getD 0 + amount) = 0
  · simp only [hz, if_pos rfl]
    intro kv hkv
    exact h _ (mem_of_mem_eraseKey hkv)
  · simp only [if_neg hz]
    intro kv hkv
    simp only [insertKey, List.mem_cons] at hkv
    rcases hkv with hkv | hkv
    · rw [hkv]
      exact hz
    · exact h _ (mem_of_mem_eraseKey hkv)

theorem shardInv_set {s : Shard} (h : ShardInv s) (key : String) (amount : Int) :
    ShardInv (s.set key amount) := by
  unfold Shard.set
  by_cases hz : amount = 0
  · simp only [hz, if_pos rfl]
    intro kv hkv
    exact h _ (mem_of_mem_eraseKey hkv)
  · simp only [if_neg hz]
    intro kv hkv
    simp only [insertKey, List.mem_cons] at hkv
    rcases hkv with hkv | hkv
    · rw [hkv]
      exact hz
    · exact h _ (mem_of_mem_eraseKey hkv)

theorem shardInv_clear (s : Shard) : ShardInv s.clear := by
  intro kv hkv
  simp [Shard.clear] at hkv

theorem view_preserves_nonzero {l acc : List (String × Int)}
    (hacc : ∀ kv ∈ acc, kv.2 ≠ 0) (hl : ∀ kv ∈ l, kv.2 ≠ 0) :
    ∀ kv ∈ List.foldl (fun a kv => insertKey a kv.1 kv.2) acc l, kv.2 ≠ 0 := by
  induction l generalizing acc with
  | nil => simpa using hacc
  | cons hd tl ih =>
    simp only [List.foldl_cons]
    refine ih ?_ (fun kv hkv => hl kv (List.mem_cons_of_mem _ hkv))
    intro kv hkv
    simp only [insertKey, List.mem_cons] at hkv
    rcases hkv with hkv | hkv
    · rw [hkv]
      exact hl hd (List.mem_cons_self _ _)
    · exact hacc _ (mem_of_mem_eraseKey hkv)

theorem shard_view_preserves_nonzero {s : Shard} {acc : List (String × Int)}
    (hacc : ∀ kv ∈ acc, kv.2 ≠ 0) (hs : ShardInv s) :
    ∀ kv ∈ s.view acc, kv.2 ≠ 0 :=
  view_preserves_nonzero hacc hs

/-- Every shard of a scoreboard satisfies the sparseness invariant. -/
def ScoreboardInv (b : Scoreboard) : Prop := ∀ s ∈ b.shards, ShardInv s

theorem scoreboardInv_mk (conc : Nat) : ScoreboardInv (mkScoreboard conc) := by
  intro s hs
  rw [List.eq_of_mem_replicate hs]
  exact shardInv_newShard

theorem scoreboardInv_applyOp {b : Scoreboard} (h : ScoreboardInv b) (op : ScoreOp) :
    ScoreboardInv (b.applyOp op) := by
  have hAdd : ∀ key amount, ScoreboardInv (((b.Add key amount).map Prod.fst).getD b) := by
    intro key amount
    cases hfk : b.forKey key with
    | none =>
      have hnone : b.Add key amount = none := by
        unfold Scoreboard.Add
        rw [hfk]
        rfl
      simpa [hnone] using h
    | some i =>
      cases hgs : b.shards.get? i with
      | none =>
        have hnone : b.Add key amount = none := by
          unfold Scoreboard.Add
          rw [hfk]
          show (b.shards.get? i).map _ = none
          rw [hgs]
          rfl
        simpa [hnone] using h
      | some s =>
        have heq : ((b.Add key amount).map Prod.fst).getD b
            = Scoreboard.mk (b.shards.set i (s.add key amount).1) := by
          unfold Scoreboard.Add
          rw [hfk]
          show (((b.shards.get? i).map _).map Prod.fst).getD b = _
          rw [hgs]
          rfl
        rw [heq]
        intro s9 hs9
        rcases List.mem_or_eq_of_mem_set hs9 with hmem | heq2
        · exact h _ hmem
        · rw [heq2]
          exact shardInv_add (h _ (List.get?_mem hgs)) key amount
  cases op with
  | add key amount => exact hAdd key amount
  | inc key => exact hAdd key 1
  | dec key => exact hAdd key (-1)
  | set key value =>
    show ScoreboardInv ((b.Set key value).getD b)
    cases hfk : b.forKey key with
    | none =>
      have hnone : b.Set key value = none := by
        unfold Scoreboard.Set
        rw [hfk]
        rfl
      simpa [hnone] using h
    | some i =>
      cases hgs : b.shards.get? i with
      | none =>
        have hnone : b.Set key value = none := by
          unfold Scoreboard.Set
          rw [hfk]
          show (b.shards.get? i).map _ = none
          rw [hgs]
          rfl
        simpa [hnone] using h
      | some s =>
        have heq : (b.Set key value).getD b
            = Scoreboard.mk (b.shards.set i (s.set key value)) := by
          unfold Scoreboard.Set
          rw [hfk]
          show ((b.shards.get? i).map _).getD b = _
          rw [hgs]
          rfl
        rw [heq]
        intro s9 hs9
        rcases List.mem_or_eq_of_mem_set hs9 with hmem | heq2
        · exact h _ hmem
        · rw [heq2]
          exact shardInv_set (h _ (List.get?_mem hgs)) key value
  | clear =>
    unfold Scoreboard.applyOp Scoreboard.Clear
    intro s hs
    simp only [List.mem_map] at hs
    rcases hs with ⟨s0, hs0, rfl⟩
    exact shardInv_clear s0

theorem scoreboardInv_run {b : Scoreboard} (h : ScoreboardInv b) (ops : List ScoreOp) :
    ScoreboardInv (b.run ops) := by
  induction ops generalizing b with
  | nil => exact h
  | cons op rest ih => exact ih (scoreboardInv_applyOp h op)

theorem view_nonzero_of_inv {b : Scoreboard} (h : ScoreboardInv b) :
    ∀ kv ∈ b.View, kv.2 ≠ 0 := by
  unfold Scoreboard.View
  have : ∀ (shards : List Shard) (acc : List (String × Int)),
      (∀ kv ∈ acc, kv.2 ≠ 0) → (∀ s ∈ shards, ShardInv s) →
      ∀ kv ∈ List.foldl (fun view s => s.view view) acc shards, kv.2 ≠ 0 := by
    intro shards
    induction shards with
    | nil => intro acc hacc _; simpa using hacc
    | cons hd tl ih =>
      intro acc hacc hs
      simp only [List.foldl_cons]
      exact ih _ (shard_view_preserves_nonzero hacc (hs hd (List.mem_cons_self _ _)))
        (fun s hmem => hs s (List.mem_cons_of_mem _ hmem))
  exact this b.shards [] (by simp) h

theorem view_mkScoreboard (conc : Nat) : (mkScoreboard conc).View = [] := by
  unfold Scoreboard.View mkScoreboard
  induction conc with
  | zero => rfl
  | succ n ih =>
    simpa [List.replicate_succ, Shard.view, newShard] using ih

theorem awaitCtxRun_cons_skip (cond : Int → Bool) (ticker : Bool) (reads : Nat)
    (step : AwaitStep) (l : List AwaitStep)
    (hc : cond step.value = false) (he : step.event ≠ WakeEvent.ctxDone) :
    awaitCtxRun cond ticker reads (step :: l) = awaitCtxRun cond true (reads + 1) l := by
  obtain ⟨sv, se⟩ := step
  cases se with
  | ctxDone => exact absurd rfl he
  | notify => simp [awaitCtxRun, hc]
  | tick => simp [awaitCtxRun, hc]

theorem awaitCtxRun_cancelled (cond : Int → Bool) (v : Int) (rest : List AwaitStep) :
    ∀ (pre : List AwaitStep) (ticker : Bool) (reads : Nat),
      (∀ s ∈ pre, cond s.value = false ∧ s.event ≠ WakeEvent.ctxDone) →
      cond v = false →
      awaitCtxRun cond ticker reads (pre ++ ⟨v, .ctxDone⟩ :: rest) =
        some ⟨v, true, reads + pre.length + 1⟩ := by
  intro pre
  induction pre with
  | nil =>
    intro ticker reads _ hv
    simp [awaitCtxRun, hv]
  | cons hd tl ih =>
    intro ticker reads hpre hv
    obtain ⟨hc, he⟩ := hpre hd (List.mem_cons_self _ _)
    have htl : ∀ s ∈ tl, cond s.value = false ∧ s.event ≠ WakeEvent.ctxDone :=
      fun s hs => hpre s (List.mem_cons_of_mem _ hs)
    rw [List.cons_append, awaitCtxRun_cons_skip cond ticker reads hd _ hc he,
      ih true (reads + 1) htl hv]
    simp only [Option.some.injEq, AwaitResult.mk.injEq, List.length_cons, true_and]
    omega

theorem runAdds_value (deltas : List Int) :
    ∀ c : AtomicCounter, -(2^63) ≤ c.value → c.value < 2^63 →
      (c.runAdds deltas).value = wrap64 (c.value + deltas.sum) := by
  induction deltas with
  | nil =>
    intro c h1 h2
    simp [AtomicCounter.runAdds, wrap64_fix h1 h2]
  | cons d rest ih =>
    intro c h1 h2
    have hr := wrap64_mem_range (c.value + d)
    have := ih ⟨wrap64 (c.value + d), true⟩ hr.1 hr.2
    simp only [AtomicCounter.runAdds, AtomicCounter.Add, AtomicCounter.notifyUpdate]
    rw [this, wrap64_idem_add]
    congr 1
    simp only [List.sum_cons]
    ring

theorem shard_add_get (s : Shard) (key : String) (d : Int) :
    ((s.add key d).1).get key = wrap64 (s.get key + d) := by
  unfold Shard.add Shard.get
  by_cases hz : wrap64 ((lookupKey s.counters key).getD 0 + d) = 0
  · simp [hz, lookupKey_eraseKey_self]
  · simp [hz, lookupKey_insertKey_self]

theorem runAddsKey_get (key : String) (deltas : List Int) :
    ∀ s : Shard, -(2^63) ≤ s.get key → s.get key < 2^63 →
      (s.runAddsKey key deltas).get key = wrap64 (s.get key + deltas.sum) := by
  induction deltas with
  | nil =>
    intro s h1 h2
    simp [Shard.runAddsKey, wrap64_fix h1 h2]
  | cons d rest ih =>
    intro s h1 h2
    have hadd := shard_add_get s key d
    have hr := wrap64_mem_range (s.get key + d)
    have := ih ((s.add key d).1) (hadd ▸ hr.1) (hadd ▸ hr.2)
    simp only [Shard.runAddsKey]
    rw [this, hadd, wrap64_idem_add]
    congr 1
    simp only [List.sum_cons]
    ring

/-! ## Claim theorems -/

/-- C1: `Deadline.TryRun(f)` reads `now` and `last = Last()`; when
`now - last > interval` it attempts the CAS from `last` to `now` and runs `f`
(returning true) exactly when the CAS succeeds, i.e. exactly when the cell
still holds `last` at the CAS instant; when `now - last ≤ interval` it returns
false without attempting the CAS, without running `f`, and without modifying
the timestamp. -/
theorem deadline_tryRun_spec (d : Deadline) (cs : TimeCas) (now : Int) :
    (now - d.Last > d.interval →
      (d.tryRun cs now).2.1 = true ∧
      ((d.tryRun cs now).2.2.2 = true ↔ cs.get = d.Last) ∧
      (d.tryRun cs now).2.2.1 = (d.tryRun cs now).2.2.2 ∧
      (cs.get = d.Last → (d.tryRun cs now).1.get = now) ∧
      (cs.get ≠ d.Last → (d.tryRun cs now).1 = cs)) ∧
    (now - d.Last ≤ d.interval →
      d.tryRun cs now = (cs, false, false, false)) := by
  unfold Deadline.tryRun TimeCas.ifSwapped TimeCas.compareAndSwap TimeCas.get
    AtomicCounter.CompareAndSwap AtomicCounter.notifyUpdate AtomicCounter.Get
  constructor
  · intro hg
    rw [if_pos hg]
    by_cases hc : cs.time.value = d.Last
    · simp [hc]
    · simp [hc]
  · intro hle
    rw [if_neg (by omega)]

/-- C1 witness: a lapsed deadline (interval 10, last run at epoch) observed at
`now = 20` with no interference attempts the CAS, wins it, runs the action,
and moves the timestamp to 20. -/
theorem deadline_tryRun_spec_witness :
    ((NewDeadline 10).tryRun ⟨⟨0, false⟩⟩ 20).2.1 = true ∧
    ((NewDeadline 10).tryRun ⟨⟨0, false⟩⟩ 20).1.get = 20 ∧
    ((NewDeadline 10).tryRun ⟨⟨0, false⟩⟩ 20).2.2.1 = ((NewDeadline 10).tryRun ⟨⟨0, false⟩⟩ 20).2.2.2 := by
  have h := (deadline_tryRun_spec (NewDeadline 10) ⟨⟨0, false⟩⟩ 20).1 (by decide)
  exact ⟨h.1, h.2.2.2.1 rfl, h.2.2.1⟩

/-- C2: when the condition never holds along the trace and the context is
eventually cancelled, `AwaitCtx` (and `Await`, which delegates to it under a
`Timeout` context) returns the value observed by its final read — not a
zero/default value; the result does not record whether the condition was met. -/
theorem awaitCtx_cancelled_returns_last_read (cond : Int → Bool) (pre : List AwaitStep)
    (v : Int) (rest : List AwaitStep)
    (hpre : ∀ s ∈ pre, cond s.value = false ∧ s.event ≠ WakeEvent.ctxDone)
    (hv : cond v = false) :
    AtomicCounter.AwaitCtx cond (pre ++ ⟨v, .ctxDone⟩ :: rest) =
      some ⟨v, true, pre.length + 1⟩ ∧
    AtomicCounter.Await cond (pre ++ ⟨v, .ctxDone⟩ :: rest) =
      some ⟨v, true, pre.length + 1⟩ := by
  have h := awaitCtxRun_cancelled cond v rest pre false 0 hpre hv
  rw [Nat.zero_add] at h
  exact ⟨h, h⟩

/-- C2 witness: a never-true condition over reads 1, 2 and a final read of 3
at cancellation returns 3, the last observed value. -/
theorem awaitCtx_cancelled_returns_last_read_witness :
    AtomicCounter.AwaitCtx (fun x => decide (100 ≤ x))
      [⟨1, .notify⟩, ⟨2, .tick⟩, ⟨3, .ctxDone⟩] = some ⟨3, true, 3⟩ :=
  (awaitCtx_cancelled_returns_last_read (fun x => decide (100 ≤ x))
    [⟨1, .notify⟩, ⟨2, .tick⟩] 3 [] (by decide) (by decide)).1

/-- C3: `CompareAndSwap(expected, replacement)` returns true and stores
`replacement` exactly when the current value equals `expected`; on mismatch it
returns false and leaves the whole state untouched; the wake-up notification
is pushed only on success. -/
theorem compareAndSwap_spec (c : AtomicCounter) (expected replacement : Int) :
    (((c.CompareAndSwap expected replacement).2 = true ∧
      (c.CompareAndSwap expected replacement).1.value = replacement) ↔ c.value = expected) ∧
    (c.value ≠ expected → (c.CompareAndSwap expected replacement).2 = false ∧
      (c.CompareAndSwap expected replacement).1 = c) ∧
    (c.value = expected → (c.CompareAndSwap expected replacement).1.notify = true) ∧
    (c.value ≠ expected → (c.CompareAndSwap expected replacement).1.notify = c.notify) := by
  unfold AtomicCounter.CompareAndSwap AtomicCounter.notifyUpdate
  by_cases h : c.value = expected
  · simp [h]
  · simp [h]

/-- C3 witness: CAS on value 5 expecting 5 succeeds and pushes a
notification; CAS on value 4 expecting 5 fails and leaves the state intact. -/
theorem compareAndSwap_spec_witness :
    ((AtomicCounter.mk 5 false).CompareAndSwap 5 9).1.notify = true ∧
    ((AtomicCounter.mk 4 false).CompareAndSwap 5 9).2 = false ∧
    ((AtomicCounter.mk 4 false).CompareAndSwap 5 9).1 = AtomicCounter.mk 4 false := by
  refine ⟨(compareAndSwap_spec ⟨5, false⟩ 5 9).2.2.1 rfl, ?_, ?_⟩
  · exact ((compareAndSwap_spec ⟨4, false⟩ 5 9).2.1 (by decide)).1
  · exact ((compareAndSwap_spec ⟨4, false⟩ 5 9).2.1 (by decide)).2

/-- C5: `Get` after `Set(v)` returns `v` without failing for every `v`
including nil (`none`); a reference constructed with no initial value yields
nil from `Get`; a stored nil sits inside the `pointer` carrier, a state
distinct from the raw never-stored `atomic.Value` (`contents = none`). -/
theorem atomicReference_nil_spec (V : Type) (r : AtomicReference V) (v : Option V) :
    (r.Set v).Get = some v ∧
    NewAtomicReference ([] : List (Option V)) =
      .ok { notify := false, value := ⟨some ⟨none⟩⟩ } ∧
    ({ notify := false, value := ⟨some ⟨none⟩⟩ } : AtomicReference V).Get = some none ∧
    (r.Set none).value.contents ≠ none := by
  refine ⟨rfl, rfl, rfl, ?_⟩
  simp [AtomicReference.Set]

/-- C5 witness: storing nil over an `Int`-payload reference that held 7 makes
`Get` return nil without failing. -/
theorem atomicReference_nil_spec_witness :
    (AtomicReference.Set ({ notify := false, value := ⟨some ⟨some 7⟩⟩ } : AtomicReference Int)
      none).Get = some none :=
  (atomicReference_nil_spec Int ⟨false, ⟨some ⟨some 7⟩⟩⟩ none).1

/-- C7: when the condition already holds of the first value read, `AwaitCtx`
returns that value immediately — one read, no ticker allocated — even when
the first `select` branch that would fire is context cancellation (context
already cancelled), because the condition is checked before the `select`. -/
theorem awaitCtx_immediate_spec (cond : Int → Bool) (v : Int) (e : WakeEvent)
    (rest : List AwaitStep) (h : cond v = true) :
    AtomicCounter.AwaitCtx cond (⟨v, e⟩ :: rest) = some ⟨v, false, 1⟩ := by
  unfold AtomicCounter.AwaitCtx awaitCtxRun
  simp [h]

/-- C7 witness: condition `3 ≤ x` already true of the entry read 5, with the
context already cancelled, returns 5 at once with no ticker. -/
theorem awaitCtx_immediate_spec_witness :
    AtomicCounter.AwaitCtx (fun x => decide (3 ≤ x)) [⟨5, .ctxDone⟩] = some ⟨5, false, 1⟩ :=
  awaitCtx_immediate_spec (fun x => decide (3 ≤ x)) 5 .ctxDone [] (by decide)

/-- C4: over every operation sequence from a fresh scoreboard, no shard's map
binds a key to 0 (`Set(key, 0)` and an `Add` reaching 0 delete the key), so no
zero survives into `View()`; `Get`/`get` on an absent key returns 0; and
`View()` of a brand-new scoreboard is empty. -/
theorem scoreboard_sparse_spec (conc : Nat) (ops : List ScoreOp) (k : String) (s : Shard) :
    (∀ sh ∈ ((mkScoreboard conc).run ops).shards, ∀ kv ∈ sh.counters, kv.2 ≠ 0) ∧
    (∀ sh ∈ ((mkScoreboard conc).run ops).shards, lookupKey sh.counters k ≠ some 0) ∧
    (∀ kv ∈ ((mkScoreboard conc).run ops).View, kv.2 ≠ 0) ∧
    lookupKey (((mkScoreboard conc).run ops).View) k ≠ some 0 ∧
    (lookupKey s.counters k = none → s.get k = 0) ∧
    (mkScoreboard conc).View = [] := by
  have hinv : ScoreboardInv ((mkScoreboard conc).run ops) :=
    scoreboardInv_run (scoreboardInv_mk conc) ops
  refine ⟨fun sh hsh => hinv sh hsh, fun sh hsh => shardInv_lookup (hinv sh hsh) k,
    view_nonzero_of_inv hinv, ?_, ?_, view_mkScoreboard conc⟩
  · intro hl
    exact view_nonzero_of_inv hinv _ (mem_of_lookupKey hl) rfl
  · intro hnone
    simp [Shard.get, hnone]

/-- C4 witness: on a one-shard scoreboard, setting key "a" to 5 and then to 0
leaves "a" absent from the view; a brand-new scoreboard's view is empty; a
fresh shard reads 0 for an absent key. -/
theorem scoreboard_sparse_spec_witness :
    lookupKey (((mkScoreboard 1).run [ScoreOp.set "a" 5, ScoreOp.set "a" 0]).View) "a" ≠ some 0 ∧
    (mkScoreboard 1).View = [] ∧
    newShard.get "a" = 0 := by
  have h := scoreboard_sparse_spec 1 [ScoreOp.set "a" 5, ScoreOp.set "a" 0] "a" newShard
  exact ⟨h.2.2.2.1, h.2.2.2.2.2, h.2.2.2.2.1 rfl⟩

/-- C6: from any in-range initial value, the counter value after a sequence of
`Add` calls is the initial value plus the sum of the deltas reduced modulo
2^64 (two's-complement wraparound); each `Add` returns the updated value, and
`Inc`/`Dec` are `Add(1)`/`Add(-1)`; the same holds for one scoreboard key via
the shard's `add`. -/
theorem counter_sum_spec (init : Int) (deltas : List Int) (c : AtomicCounter) (a : Int)
    (s : Shard) (key : String)
    (h1 : -(2^63) ≤ init) (h2 : init < 2^63)
    (h3 : -(2^63) ≤ s.get key) (h4 : s.get key < 2^63) :
    ((AtomicCounter.mk init false).runAdds deltas).Get = wrap64 (init + deltas.sum) ∧
    (c.Add a).2 = (c.Add a).1.Get ∧
    (c.Add a).2 = wrap64 (c.Get + a) ∧
    c.Inc = c.Add 1 ∧
    c.Dec = c.Add (-1) ∧
    (s.runAddsKey key deltas).get key = wrap64 (s.get key + deltas.sum) := by
  refine ⟨?_, rfl, rfl, rfl, rfl, ?_⟩
  · exact runAdds_value deltas ⟨init, false⟩ h1 h2
  · exact runAddsKey_get key deltas s h3 h4

/-- C6 witness: adding 1 to a counter holding `int64` max wraps to `int64`
min, modulo 2^64. -/
theorem counter_sum_spec_witness :
    ((AtomicCounter.mk 9223372036854775807 false).runAdds [1]).Get = -9223372036854775808 := by
  have h := (counter_sum_spec 9223372036854775807 [1] ⟨0, false⟩ 0 newShard "k"
    (by decide) (by decide) (by decide) (by decide)).1
  rw [h]
  decide

/-- Folds the literal "1" into the arity panic message produced at limit 1. -/
theorem sole_panic_msg (n : Nat) :
    "Expected at most " ++ toString (1 : Int) ++ " argument(s), got " ++ toString n =
      "Expected at most 1 argument(s), got " ++ toString n := by
  have h1 : "Expected at most " ++ toString (1 : Int) ++ " argument(s), got " =
      "Expected at most 1 argument(s), got " := by decide
  rw [h1]

/-- C8: a sole optional argument defaults when absent, is used when supplied
alone, and more than one argument panics with
"Expected at most 1 argument(s), got N" — in `arity.Sole` itself and in the
constructors (`NewAtomicCounter`'s initial value, `NewScoreboard`'s
concurrency) built on it; extras are never silently ignored. -/
theorem arity_sole_spec (dflt a : Int) (args : List Int) :
    Sole dflt ([] : List Int) = .ok dflt ∧
    Sole dflt [a] = .ok a ∧
    (1 < (args.length : Int) → Sole dflt args =
      .error ("Expected at most 1 argument(s), got " ++ toString args.length)) ∧
    NewAtomicCounter [] = .ok { value := 0, notify := false } ∧
    NewAtomicCounter [a] = .ok { value := a, notify := false } ∧
    (1 < (args.length : Int) → NewAtomicCounter args =
      .error ("Expected at most 1 argument(s), got " ++ toString args.length)) ∧
    NewScoreboard [] = .ok (mkScoreboard 16) ∧
    (0 ≤ a → NewScoreboard [a] = .ok (mkScoreboard a.toNat)) ∧
    (1 < (args.length : Int) → NewScoreboard args =
      .error ("Expected at most 1 argument(s), got " ++ toString args.length)) := by
  have hsole : ∀ d : Int, 1 < (args.length : Int) → Sole d args =
      .error ("Expected at most 1 argument(s), got " ++ toString args.length) := by
    intro d hlen
    unfold Sole Optional
    rw [if_neg (by decide), dif_neg (by decide), if_pos hlen, sole_panic_msg]
  refine ⟨rfl, rfl, hsole dflt, rfl, rfl, ?_, rfl, ?_, ?_⟩
  · intro hlen
    unfold NewAtomicCounter
    rw [hsole 0 hlen]
    rfl
  · intro ha
    unfold NewScoreboard
    show ((Sole (DefaultConcurrency : Int) [a]).bind _) = _
    rw [show Sole (DefaultConcurrency : Int) [a] = .ok a from rfl]
    show (if a < 0 then _ else _) = _
    rw [if_neg (by omega)]
  · intro hlen
    unfold NewScoreboard
    rw [hsole DefaultConcurrency hlen]
    rfl

/-- C8 witness: two optional arguments make `Sole` and `NewAtomicCounter`
panic with the descriptive two-argument message. -/
theorem arity_sole_spec_witness :
    Sole (0 : Int) [7, 8] = .error "Expected at most 1 argument(s), got 2" ∧
    NewAtomicCounter [7, 8] = .error "Expected at most 1 argument(s), got 2" := by
  have h := arity_sole_spec 0 7 [7, 8]
  have hm : ("Expected at most 1 argument(s), got " ++ toString ([7, 8] : List Int).length) =
      "Expected at most 1 argument(s), got 2" := by decide
  constructor
  · rw [h.2.2.1 (by decide), hm]
  · rw [h.2.2.2.2.2.1 (by decide), hm]

/-- C9: `NewScoreboard(0)` constructs successfully with zero shards, but the
shard-routing computation `hash(key) % len(shards)` then divides by zero, so
every keyed operation — `Get`, `Add`, `Inc`, `Dec`, `Set`, `AwaitCtx` — fails
(returns `none`, the modelled runtime panic) instead of returning a value. -/
theorem newScoreboard_zero_spec (key : String) (amount value : Int) (cond : Int → Bool)
    (steps : List AwaitStep) :
    NewScoreboard [0] = .ok (mkScoreboard 0) ∧
    (mkScoreboard 0).shards = [] ∧
    (mkScoreboard 0).forKey key = none ∧
    (mkScoreboard 0).Get key = none ∧
    (mkScoreboard 0).Add key amount = none ∧
    (mkScoreboard 0).Inc key = none ∧
    (mkScoreboard 0).Dec key = none ∧
    (mkScoreboard 0).Set key value = none ∧
    (mkScoreboard 0).AwaitCtx key cond steps = none :=
  ⟨rfl, rfl, rfl, rfl, rfl, rfl, rfl, rfl, rfl⟩

/-- C10: the context `Timeout(parent, timeout)` returns is derived from
`context.Background()`, not from `parent`: its done-predicate is literally
independent of the parent, and it is done exactly when its own deadline
`now + timeout` has passed or its own cancel function has been called;
`Forever(parent)` is `Timeout(parent, Indefinitely)`. -/
theorem timeout_ignores_parent_spec (p1 p2 : Context) (now timeout t c : Int)
    (cancelledAt : Option Int) :
    Timeout p1 now timeout cancelledAt = Timeout p2 now timeout cancelledAt ∧
    Timeout p1 now timeout none t = decide (now + timeout ≤ t) ∧
    Timeout p1 now timeout (some c) t = (decide (now + timeout ≤ t) || decide (c ≤ t)) ∧
    Forever p1 now cancelledAt = Timeout p1 now Indefinitely cancelledAt := by
  refine ⟨rfl, ?_, ?_, rfl⟩
  · simp [Timeout, withDeadline, background]
  · simp [Timeout, withDeadline, background]

end Libstdgo
